import Mathlib

/-!
Shallow embedding of `src/peft/utils/merge_utils.py` (model-merging utilities:
pruning, sign-consensus masking, disjoint merge, task arithmetic, and the SCE
merge with its energy weights and variance mask).

Modelling conventions:
* Tensor element values are exact rationals (`ℚ`); the properties under study
  are exact arithmetic relationships, not floating-point rounding artefacts.
* Code that raises a Python exception is modelled with `Option` / `Except`;
  `warnings.warn` is modelled by returning the warning message alongside the
  result.
* The `torch.bernoulli` randomness of `random_pruning` is passed in explicitly
  as a list of coin flips.
* Two views of a tensor are used, matching what each source function actually
  inspects:
  - a flat view (`List ℚ` for one tensor, `Fin N → Fin P → ℚ` for a stack of
    `N` task tensors over `P` flattened positions) for the purely elementwise
    and task-axis operations, all of which commute with flattening;
  - a shaped view (`Shaped.Tensor`: a shape plus an indexing function) with
    full PyTorch broadcasting, for the claims that are about shapes and ranks.
* `torch.topk` ties are broken deterministically by smaller index (stable
  descending order), the deterministic tie-break the module requires.
-/

/-- Cast of a boolean to `ℚ`, modelling PyTorch promotion of a bool tensor
under multiplication and summation. -/
def b2r (b : Bool) : ℚ := if b then 1 else 0

/-- Elementwise model of `torch.sign` on exact rationals. -/
def rsign (q : ℚ) : ℚ := if 0 < q then 1 else if q < 0 then -1 else 0

/-- Strict precedence used by `torch.topk(keys, largest=True)`: position `j`
is ranked before position `i` if its key is larger, ties broken by smaller
index (stable descending order). -/
def topkPrec (keys : List ℚ) (j i : Nat) : Prop :=
  keys.getD i 0 < keys.getD j 0 ∨ (keys.getD j 0 = keys.getD i 0 ∧ j < i)

instance (keys : List ℚ) (j i : Nat) : Decidable (topkPrec keys j i) := by
  unfold topkPrec
  exact inferInstance

/-- Rank of position `i` in the stable descending order of `keys`:
`torch.topk(keys, k, largest=True)` selects exactly the positions of rank
`< k`. -/
def topkRank (keys : List ℚ) (i : Nat) : Nat :=
  ((Finset.range keys.length).filter (fun j => topkPrec keys j i)).card

/-- `magnitude_based_pruning` from the source, on the flattened data (the
source flattens the tensor, builds a 0/1 mask whose support is the
`k = int(density * tensor.numel())` positions of largest absolute value
selected by `torch.topk`, multiplies elementwise, and reshapes back). -/
def magnitude_based_pruning (tensor : List ℚ) (density : ℚ) : List ℚ :=
  let k : Nat := (⌊density * (tensor.length : ℚ)⌋).toNat
  let keys : List ℚ := tensor.map (fun x => |x|)
  (List.range tensor.length).map fun i =>
    tensor.getD i 0 * (if topkRank keys i < k then 1 else 0)

/-- `random_pruning` from the source, with the Bernoulli draw passed in
explicitly (`bern` holds the per-element coin flips of
`torch.bernoulli(torch.full_like(tensor, density))`).  The source computes
`torch.div(input=pruned_tensor, other=density)` in the rescale branch but
never assigns or returns the quotient, so the model likewise discards it and
returns the unscaled `pruned_tensor`. -/
def random_pruning (tensor : List ℚ) (density : ℚ) (rescale : Bool)
    (bern : List Bool) : List ℚ :=
  let mask : List ℚ := bern.map fun b => if b then 1 else 0
  let pruned_tensor := List.zipWith (· * ·) tensor mask
  if rescale then
    let _unused := pruned_tensor.map (fun x => x / density)
    pruned_tensor
  else
    pruned_tensor

/-- `prune` from the source: the dispatcher.  `density >= 1` warns and returns
the tensor unchanged; `density < 0` raises `ValueError`; otherwise dispatch on
the method string, unknown methods raising `ValueError`. -/
def prune (tensor : List ℚ) (density : ℚ) (method : String) (rescale : Bool)
    (bern : List Bool) : Except String (List String × List ℚ) :=
  if density ≥ 1 then
    .ok (["The density is greater than or equal to 1, no pruning will be performed."],
      tensor)
  else if density < 0 then
    .error "Density should be >= 0"
  else if method = "magnitude" then
    .ok ([], magnitude_based_pruning tensor density)
  else if method = "random" then
    .ok ([], random_pruning tensor density rescale bern)
  else
    .error "Unknown method"

/-- `calculate_majority_sign_mask` from the source, on a stack of `N` task
tensors over `P` flattened positions (the task axis is axis 0; every other
operation is elementwise over positions).  Unknown method strings raise
`RuntimeError`, modelled by `none`. -/
def calculate_majority_sign_mask {N P : Nat} (tensor : Fin N → Fin P → ℚ)
    (method : String) : Option (Fin N → Fin P → Bool) :=
  let sign : Fin N → Fin P → ℚ := fun i j => rsign (tensor i j)
  let sign_magnitude? : Option (Fin P → ℚ) :=
    if method = "total" then some (fun j => ∑ i, tensor i j)
    else if method = "frequency" then some (fun j => ∑ i, sign i j)
    else none
  sign_magnitude?.map fun sign_magnitude =>
    let majority_sign : Fin P → ℚ := fun j => if sign_magnitude j ≥ 0 then 1 else -1
    fun i j => decide (sign i j = majority_sign j)

/-- Numerator of `disjoint_merge`: `(task_tensors * majority_sign_mask).sum(dim=0)`. -/
def dm_numerator {N P : Nat} (task_tensors : Fin N → Fin P → ℚ)
    (majority_sign_mask : Fin N → Fin P → Bool) (j : Fin P) : ℚ :=
  ∑ i, task_tensors i j * b2r (majority_sign_mask i j)

/-- Per-position participant count of `disjoint_merge`:
`majority_sign_mask.sum(dim=0)`. -/
def dm_count {N P : Nat} (majority_sign_mask : Fin N → Fin P → Bool) (j : Fin P) : ℚ :=
  ∑ i, b2r (majority_sign_mask i j)

/-- `disjoint_merge` from the source:
`mixed / torch.clamp(num_params_preserved, min=1.0)`. -/
def disjoint_merge {N P : Nat} (task_tensors : Fin N → Fin P → ℚ)
    (majority_sign_mask : Fin N → Fin P → Bool) : Fin P → ℚ :=
  fun j => dm_numerator task_tensors majority_sign_mask j /
    max (dm_count majority_sign_mask j) 1

/-- `task_arithmetic` from the source: stack the task tensors, broadcast the
per-task weights against them, sum along the task axis. -/
def task_arithmetic {N P : Nat} (task_tensors : Fin N → Fin P → ℚ)
    (weights : Fin N → ℚ) : Fin P → ℚ :=
  fun j => ∑ i, task_tensors i j * weights i

/-- `sce_weight` from the source: per-task mean of squared values over every
non-task dimension (`torch.mean(task_tensors**2, dim=list(range(1, dim)))`),
normalised by the total; a uniform `1/N` fallback when the total's absolute
value is below `1e-6`. -/
def sce_weight {N P : Nat} (task_tensors : Fin N → Fin P → ℚ) : Fin N → ℚ :=
  let weights : Fin N → ℚ := fun i => (∑ j, task_tensors i j ^ 2) / (P : ℚ)
  let weight_sum : ℚ := ∑ i, weights i
  if |weight_sum| < 1 / 1000000 then fun _ => 1 / (N : ℚ)
  else fun i => weights i / weight_sum

namespace Shaped

/-- A shaped tensor: a shape (list of dimension sizes, row-major) together
with an indexing function from multi-indices to values.  Values at
out-of-range indices are irrelevant junk; operations only read in-range
indices of their operands. -/
structure Tensor where
  shape : List Nat
  fn : List Nat → ℚ

/-- A boolean tensor, as produced by `==` comparisons in torch. -/
structure BTensor where
  shape : List Nat
  fn : List Nat → Bool

/-- `tensor.dim()`. -/
def Tensor.dim (t : Tensor) : Nat := t.shape.length

/-- `tensor.numel()`. -/
def Tensor.numel (t : Tensor) : Nat := t.shape.prod

/-- All valid multi-indices of a shape, in row-major order. -/
def indicesList : List Nat → List (List Nat)
  | [] => [[]]
  | d :: s => (List.range d).flatMap fun i => (indicesList s).map (i :: ·)

/-- The row-major flattening of a tensor's values (used to state concrete
evaluations). -/
def Tensor.toList (t : Tensor) : List ℚ := (indicesList t.shape).map t.fn

/-- Row-major flat index of a multi-index. -/
def toFlat : List Nat → List Nat → Nat
  | _ :: s, i :: is => i * s.prod + toFlat s is
  | _, _ => 0

/-- Multi-index of a row-major flat index. -/
def fromFlat : List Nat → Nat → List Nat
  | [], _ => []
  | _ :: s, k => k / s.prod :: fromFlat s (k % s.prod)

/-- PyTorch broadcast of two shapes: align from the right, pad the shorter
shape with leading 1s, and take the elementwise maximum (for compatible
shapes each pair of aligned dimensions is equal or one of them is 1, so the
maximum is the surviving dimension; incompatible shapes raise in torch and
are never produced by the functions modelled here). -/
def broadcastShape (s t : List Nat) : List Nat :=
  let n := max s.length t.length
  List.zipWith max (List.replicate (n - s.length) 1 ++ s)
    (List.replicate (n - t.length) 1 ++ t)

/-- Map a multi-index of the broadcast result back to a multi-index of an
operand: drop the extra leading axes, and read index 0 on every axis the
operand has as a singleton. -/
def bcIdx (srcShape : List Nat) (outRank : Nat) (idx : List Nat) : List Nat :=
  List.zipWith (fun d i => if d = 1 then 0 else i) srcShape
    (idx.drop (outRank - srcShape.length))

/-- Elementwise binary operation with PyTorch broadcasting. -/
def Tensor.binop (f : ℚ → ℚ → ℚ) (a b : Tensor) : Tensor :=
  let s := broadcastShape a.shape b.shape
  ⟨s, fun idx => f (a.fn (bcIdx a.shape s.length idx)) (b.fn (bcIdx b.shape s.length idx))⟩

/-- Broadcasting `*`. -/
def Tensor.mul (a b : Tensor) : Tensor := Tensor.binop (· * ·) a b

/-- Broadcasting `/`. -/
def Tensor.div (a b : Tensor) : Tensor := Tensor.binop (· / ·) a b

/-- Elementwise map. -/
def Tensor.map (f : ℚ → ℚ) (t : Tensor) : Tensor := ⟨t.shape, fun idx => f (t.fn idx)⟩

/-- `tensor.sign()`. -/
def Tensor.sign (t : Tensor) : Tensor := t.map rsign

/-- `tensor.clamp(min=m)`. -/
def Tensor.clampMin (t : Tensor) (m : ℚ) : Tensor := t.map (fun x => max x m)

/-- `torch.zeros_like(t)`. -/
def Tensor.zerosLike (t : Tensor) : Tensor := ⟨t.shape, fun _ => 0⟩

/-- `torch.ones_like(t)`. -/
def Tensor.onesLike (t : Tensor) : Tensor := ⟨t.shape, fun _ => 1⟩

/-- `tensor.sum(dim=0)`. -/
def Tensor.sumDim0 (t : Tensor) : Tensor :=
  ⟨t.shape.tail,
   fun idx => ((List.range (t.shape.headD 0)).map (fun i => t.fn (i :: idx))).sum⟩

/-- `tensor.unsqueeze(0)`. -/
def Tensor.unsqueeze0 (t : Tensor) : Tensor := ⟨1 :: t.shape, fun idx => t.fn idx.tail⟩

/-- `tensor.unsqueeze(-1)`. -/
def Tensor.unsqueezeLast (t : Tensor) : Tensor :=
  ⟨t.shape ++ [1], fun idx => t.fn idx.dropLast⟩

/-- `torch.var(t, dim=0, unbiased=False)`: population variance along the task
axis. -/
def Tensor.varDim0 (t : Tensor) : Tensor :=
  ⟨t.shape.tail, fun idx =>
    let n := t.shape.headD 0
    let mean := ((List.range n).map (fun i => t.fn (i :: idx))).sum / (n : ℚ)
    ((List.range n).map (fun i => (t.fn (i :: idx) - mean) ^ 2)).sum / (n : ℚ)⟩

/-- `torch.stack(ts, dim=0)`. -/
def Tensor.stack (ts : List Tensor) : Tensor :=
  ⟨ts.length :: (ts.headD ⟨[], fun _ => 0⟩).shape,
   fun idx => (ts.getD (idx.headD 0) ⟨[], fun _ => 0⟩).fn idx.tail⟩

/-- `tensor.view(newShape)`: raises unless the element counts agree. -/
def Tensor.view (t : Tensor) (newShape : List Nat) : Option Tensor :=
  if newShape.prod = t.numel then
    some ⟨newShape, fun idx => t.fn (fromFlat t.shape (toFlat newShape idx))⟩
  else none

/-- Promotion of a bool tensor to a numeric tensor (torch type promotion
under arithmetic). -/
def BTensor.toTensor (m : BTensor) : Tensor := ⟨m.shape, fun idx => b2r (m.fn idx)⟩

/-- Broadcasting `==` between two numeric tensors, yielding a bool tensor. -/
def Tensor.beq (a b : Tensor) : BTensor :=
  let s := broadcastShape a.shape b.shape
  ⟨s, fun idx =>
    decide (a.fn (bcIdx a.shape s.length idx) = b.fn (bcIdx b.shape s.length idx))⟩

/-- `torch.where(t >= 0, a, b)` fused into one elementwise operation. -/
def Tensor.whereGe0 (t : Tensor) (a b : ℚ) : Tensor :=
  ⟨t.shape, fun idx => if t.fn idx ≥ 0 then a else b⟩

/-- `reshape_weight_task_tensors` from the source:
`new_shape = weights.shape + (1,) * (task_tensors.dim() - weights.dim())`
(Python's `(1,) * n` is empty for `n <= 0`, matching truncated `Nat`
subtraction) followed by `weights.view(new_shape)`. -/
def reshape_weight_task_tensors (task_tensors weights : Tensor) : Option Tensor :=
  let new_shape := weights.shape ++ List.replicate (task_tensors.dim - weights.dim) 1
  weights.view new_shape

/-- `calculate_majority_sign_mask` from the source, on shaped tensors. -/
def calculate_majority_sign_mask (tensor : Tensor) (method : String) :
    Option BTensor :=
  let sign := tensor.sign
  let sign_magnitude? : Option Tensor :=
    if method = "total" then some tensor.sumDim0
    else if method = "frequency" then some sign.sumDim0
    else none
  sign_magnitude?.map fun sign_magnitude =>
    let majority_sign := sign_magnitude.whereGe0 1 (-1)
    sign.beq majority_sign

/-- `sce_weight` from the source, on shaped tensors:
`torch.mean(task_tensors**2, dim=list(range(1, dim)))` is the per-task sum of
squares divided by the number of per-task elements. -/
def sce_weight (task_tensors : Tensor) : Tensor :=
  let n := task_tensors.shape.headD 0
  let restShape := task_tensors.shape.tail
  let weights : Tensor :=
    ⟨[n], fun idx =>
      ((indicesList restShape).map
        (fun j => task_tensors.fn (idx.headD 0 :: j) ^ 2)).sum / (restShape.prod : ℚ)⟩
  let weight_sum : ℚ := ((List.range n).map (fun i => weights.fn [i])).sum
  if |weight_sum| < 1 / 1000000 then ⟨[n], fun _ => 1 / (n : ℚ)⟩
  else ⟨[n], fun idx => weights.fn idx / weight_sum⟩

/-- `sce_mask` from the source.  Note that the `density <= 0` and `k == 0`
branches return `torch.zeros_like(task_tensors)` — a mask of the STACKED
shape — while the top-k branch builds the mask over the variance tensor's
(per-position) shape. -/
def sce_mask (task_tensors : Tensor) (density : ℚ) : Tensor :=
  if density ≤ 0 then task_tensors.zerosLike
  else if density ≥ 1 then task_tensors.onesLike
  else
    let var := task_tensors.varDim0
    let nonzero : Nat :=
      ((indicesList var.shape).filter (fun idx => decide (var.fn idx ≠ 0))).length
    let k : Nat := (⌊density * (nonzero : ℚ)⌋).toNat
    if k = 0 then task_tensors.zerosLike
    else
      let flatAbs : List ℚ := (indicesList var.shape).map (fun idx => |var.fn idx|)
      ⟨var.shape, fun idx => if topkRank flatAbs (toFlat var.shape idx) < k then 1 else 0⟩

/-- The `while tv_weights.dim() < task_tensors.dim(): unsqueeze(-1)` loop,
with the number of iterations (the rank deficit) made explicit. -/
def unsqueezeLastN (t : Tensor) : Nat → Tensor
  | 0 => t
  | n + 1 => unsqueezeLastN t.unsqueezeLast n

/-- `sce` from the source: stack; if `density < 1` multiply by
`sce_mask(stacked, density).unsqueeze(0)`; compute the majority-sign erase
mask; compute energy weights, unsqueeze them up to the stacked rank; erase;
weighted-sum along the task axis; normalise by the per-position weight sum
clamped to `1e-6`.  The unknown-method `RuntimeError` surfaces as `none`. -/
def sce (task_tensors : List Tensor) (density : ℚ)
    (majority_sign_method : String) : Option Tensor :=
  let stacked := Tensor.stack task_tensors
  let stacked :=
    if density < 1 then stacked.mul ((sce_mask stacked density).unsqueeze0)
    else stacked
  (calculate_majority_sign_mask stacked majority_sign_method).map fun erase_mask =>
    let tv_weights := sce_weight stacked
    let tv_weights := unsqueezeLastN tv_weights (stacked.dim - tv_weights.dim)
    let erased_weights := tv_weights.mul erase_mask.toTensor
    let merged_tv := (stacked.mul erased_weights).sumDim0
    merged_tv.div ((erased_weights.sumDim0).clampMin (1 / 1000000))

end Shaped

/-- Number of nonzero elements of a (flattened) tensor. -/
def countNonzero (l : List ℚ) : Nat := l.countP (fun x => decide (x ≠ 0))

/-- Example input: the task tensor `[1, 2]` (shape `[2]`). -/
def exA : Shaped.Tensor := ⟨[2], fun idx => if idx.headD 0 = 0 then 1 else 2⟩

/-- Example input: the task tensor `[3, 4]` (shape `[2]`). -/
def exB : Shaped.Tensor := ⟨[2], fun idx => if idx.headD 0 = 0 then 3 else 4⟩

/-- Example input: a rank-1 task tensor of shape `[2]`. -/
def exTaskT : Shaped.Tensor := ⟨[2], fun _ => 0⟩

/-- Example input: a rank-2 weight tensor of shape `[1, 2]` holding `[[0, 1]]`. -/
def exWeights2D : Shaped.Tensor := ⟨[1, 2], fun idx => (idx.getD 1 0 : ℚ)⟩

/-- The spec's worked example for the sign-consensus engine: three stacked
tasks over two positions, values `[[1,-1],[1,1],[-1,1]]`. -/
def ex3 : Fin 3 → Fin 2 → ℚ := ![![1, -1], ![1, 1], ![-1, 1]]

/-- The mask the spec expects on `ex3` with method `total`. -/
def exMask3 : Fin 3 → Fin 2 → Bool := ![![true, false], ![true, true], ![false, true]]

/-- Stacked example with an exact zero in task 0: `[[0],[5]]`. -/
def exZeroTask : Fin 2 → Fin 1 → ℚ := ![![0], ![5]]

/-- Stacked example for the energy weights: `[[1],[1]]`. -/
def exEnergy : Fin 2 → Fin 1 → ℚ := ![![1], ![1]]

/-- The majority-sign mask the code computes on `exZeroTask` with method
`total` (written out as the mask function the source builds). -/
def exZeroMask : Fin 2 → Fin 1 → Bool :=
  fun i j => decide (rsign (exZeroTask i j) =
    if (∑ k, exZeroTask k j) ≥ 0 then 1 else -1)

theorem toFlat_lt :
    ∀ (s : List Nat) (idx : List Nat), idx ∈ Shaped.indicesList s →
      Shaped.toFlat s idx < s.prod := by
  intro s
  induction s with
  | nil =>
      intro idx h
      simp [Shaped.indicesList] at h
      subst h
      simp [Shaped.toFlat]
  | cons d s ih =>
      intro idx h
      simp only [Shaped.indicesList, List.mem_flatMap, List.mem_map, List.mem_range] at h
      obtain ⟨i, hi, js, hjs, rfl⟩ := h
      have hr := ih js hjs
      have h1 : Shaped.toFlat (d :: s) (i :: js) = i * s.prod + Shaped.toFlat s js := rfl
      rw [h1, List.prod_cons]
      calc i * s.prod + Shaped.toFlat s js < i * s.prod + s.prod := by omega
        _ = (i + 1) * s.prod := by ring
        _ ≤ d * s.prod := Nat.mul_le_mul_right _ (by omega)

theorem fromFlat_toFlat :
    ∀ (s : List Nat) (idx : List Nat), idx ∈ Shaped.indicesList s →
      Shaped.fromFlat s (Shaped.toFlat s idx) = idx := by
  intro s
  induction s with
  | nil =>
      intro idx h
      simp [Shaped.indicesList] at h
      subst h
      rfl
  | cons d s ih =>
      intro idx h
      simp only [Shaped.indicesList, List.mem_flatMap, List.mem_map, List.mem_range] at h
      obtain ⟨i, hi, js, hjs, rfl⟩ := h
      have hr : Shaped.toFlat s js < s.prod := toFlat_lt s js hjs
      have hP : 0 < s.prod := lt_of_le_of_lt (Nat.zero_le _) hr
      have h1 : Shaped.toFlat (d :: s) (i :: js) = i * s.prod + Shaped.toFlat s js := rfl
      have h2 : Shaped.fromFlat (d :: s) (i * s.prod + Shaped.toFlat s js) =
          (i * s.prod + Shaped.toFlat s js) / s.prod ::
            Shaped.fromFlat s ((i * s.prod + Shaped.toFlat s js) % s.prod) := rfl
      have hdiv : (i * s.prod + Shaped.toFlat s js) / s.prod = i := by
        rw [Nat.add_comm, Nat.add_mul_div_right _ _ hP, Nat.div_eq_of_lt hr]
        omega
      have hmod : (i * s.prod + Shaped.toFlat s js) % s.prod = Shaped.toFlat s js := by
        rw [Nat.add_comm, Nat.add_mul_mod_self_right, Nat.mod_eq_of_lt hr]
      rw [h1, h2, hdiv, hmod, ih js hjs]

theorem topkPrec_trans {keys : List ℚ} {a b c : Nat}
    (h1 : topkPrec keys a b) (h2 : topkPrec keys b c) : topkPrec keys a c := by
  rcases h1 with h1 | ⟨e1, l1⟩ <;> rcases h2 with h2 | ⟨e2, l2⟩
  · exact Or.inl (lt_trans h2 h1)
  · exact Or.inl (e2 ▸ h1)
  · exact Or.inl (lt_of_lt_of_le h2 (le_of_eq e1.symm))
  · exact Or.inr ⟨e1.trans e2, lt_trans l1 l2⟩

theorem topkPrec_irrefl (keys : List ℚ) (i : Nat) : ¬ topkPrec keys i i := by
  simp [topkPrec]

theorem topkPrec_total {keys : List ℚ} {a b : Nat} (h : a ≠ b) :
    topkPrec keys a b ∨ topkPrec keys b a := by
  rcases lt_trichotomy (keys.getD a 0) (keys.getD b 0) with hk | hk | hk
  · exact Or.inr (Or.inl hk)
  · rcases Nat.lt_or_ge a b with hab | hab
    · exact Or.inl (Or.inr ⟨hk, hab⟩)
    · exact Or.inr (Or.inr ⟨hk.symm, by omega⟩)
  · exact Or.inl (Or.inl hk)

theorem topkRank_lt {keys : List ℚ} {i : Nat} (hi : i < keys.length) :
    topkRank keys i < keys.length := by
  have hsub : (Finset.range keys.length).filter (fun j => topkPrec keys j i) ⊆
      (Finset.range keys.length).erase i := by
    intro j hj
    rw [Finset.mem_filter] at hj
    refine Finset.mem_erase.mpr ⟨?_, hj.1⟩
    intro hji
    exact topkPrec_irrefl keys i (hji ▸ hj.2)
  have := Finset.card_le_card hsub
  rw [Finset.card_erase_of_mem (Finset.mem_range.mpr hi), Finset.card_range] at this
  unfold topkRank
  omega

theorem topkRank_lt_rank {keys : List ℚ} {i j : Nat} (hp : topkPrec keys i j)
    (hi : i < keys.length) : topkRank keys i < topkRank keys j := by
  apply Finset.card_lt_card
  rw [Finset.ssubset_iff_of_subset]
  · exact ⟨i, Finset.mem_filter.mpr ⟨Finset.mem_range.mpr hi, hp⟩,
      fun hmem => topkPrec_irrefl keys i (Finset.mem_filter.mp hmem).2⟩
  · intro l hl
    rw [Finset.mem_filter] at hl ⊢
    exact ⟨hl.1, topkPrec_trans hl.2 hp⟩

theorem topkRank_injOn {keys : List ℚ} {i j : Nat} (hi : i < keys.length)
    (hj : j < keys.length) (hij : i ≠ j) : topkRank keys i ≠ topkRank keys j := by
  rcases topkPrec_total hij with hp | hp
  · exact Nat.ne_of_lt (topkRank_lt_rank hp hi)
  · exact Nat.ne_of_gt (topkRank_lt_rank hp hj)

theorem topkRank_image (keys : List ℚ) :
    (Finset.range keys.length).image (topkRank keys) = Finset.range keys.length := by
  apply Finset.eq_of_subset_of_card_le
  · intro m hm
    rw [Finset.mem_image] at hm
    obtain ⟨i, hi, rfl⟩ := hm
    exact Finset.mem_range.mpr (topkRank_lt (Finset.mem_range.mp hi))
  · rw [Finset.card_image_of_injOn]
    intro a ha b hb hab
    by_contra hne
    exact topkRank_injOn (Finset.mem_range.mp ha) (Finset.mem_range.mp hb) hne hab

theorem topkRank_card_sel {keys : List ℚ} {k : Nat} (hk : k ≤ keys.length) :
    ((Finset.range keys.length).filter (fun i => topkRank keys i < k)).card = k := by
  set S := (Finset.range keys.length).filter (fun i => topkRank keys i < k) with hS
  have hinj : Set.InjOn (topkRank keys) S := by
    intro a ha b hb hab
    rw [hS, Finset.coe_filter, Set.mem_setOf_eq] at ha hb
    by_contra hne
    exact topkRank_injOn (Finset.mem_range.mp ha.1) (Finset.mem_range.mp hb.1) hne hab
  have himg : S.image (topkRank keys) = Finset.range k := by
    apply Finset.Subset.antisymm
    · intro m hm
      rw [Finset.mem_image] at hm
      obtain ⟨i, hi, rfl⟩ := hm
      exact Finset.mem_range.mpr (Finset.mem_filter.mp hi).2
    · intro m hm
      have hm' : m ∈ Finset.range keys.length :=
        Finset.mem_range.mpr (lt_of_lt_of_le (Finset.mem_range.mp hm) hk)
      rw [← topkRank_image keys, Finset.mem_image] at hm'
      obtain ⟨i, hi, rfl⟩ := hm'
      exact Finset.mem_image.mpr
        ⟨i, Finset.mem_filter.mpr ⟨hi, Finset.mem_range.mp hm⟩, rfl⟩
  have := Finset.card_image_of_injOn hinj
  rw [himg, Finset.card_range] at this
  exact this.symm

theorem getD_map_range {α : Type} (n : Nat) (f : Nat → α) (d : α) {i : Nat}
    (h : i < n) : ((List.range n).map f).getD i d = f i := by
  rw [List.getD_eq_getElem?_getD, List.getElem?_map, List.getElem?_range h]
  rfl

theorem getD_map_abs (l : List ℚ) (i : Nat) :
    (l.map (fun x => |x|)).getD i 0 = |l.getD i 0| := by
  rcases Nat.lt_or_ge i l.length with h | h
  · rw [List.getD_eq_getElem?_getD, List.getElem?_map,
      List.getElem?_eq_getElem h, List.getD_eq_getElem?_getD,
      List.getElem?_eq_getElem h]
    rfl
  · rw [List.getD_eq_default _ _ (by simpa using h), List.getD_eq_default _ _ h]
    simp

theorem countP_range_eq_card (n : Nat) (p : Nat → Bool) :
    (List.range n).countP p = ((Finset.range n).filter (fun i => p i = true)).card := by
  induction n with
  | zero => simp
  | succ n ih =>
      rw [List.range_succ, List.countP_append, Finset.range_succ, Finset.filter_insert]
      by_cases h : p n = true
      · rw [if_pos h, Finset.card_insert_of_not_mem (by simp), ih]
        simp [List.countP_cons, h]
      · rw [if_neg h, ih]
        simp [List.countP_cons, h]

theorem magnitude_based_pruning_getD {tensor : List ℚ} {density : ℚ} {i : Nat}
    (h : i < tensor.length) :
    (magnitude_based_pruning tensor density).getD i 0 =
      tensor.getD i 0 *
        (if topkRank (tensor.map (fun x => |x|)) i <
            (⌊density * (tensor.length : ℚ)⌋).toNat then 1 else 0) := by
  unfold magnitude_based_pruning
  exact getD_map_range tensor.length _ 0 h

/-- C1: `random_pruning` with `rescale=true` is claimed to return the masked
tensor with kept values divided by the density, differing from the
`rescale=false` result whenever a kept element is nonzero.  The source
computes `torch.div(input=pruned_tensor, other=density)` and discards the
result, so on tensor `[2]`, density `1/2`, Bernoulli mask `[1]` both branches
return `[2]` — not the rescaled `[4]` — exhibiting the discarded-rescale bug
at this failing input. -/
theorem random_pruning_rescale_discarded :
    random_pruning [(2 : ℚ)] (1 / 2) true [true] = [2] ∧
      random_pruning [(2 : ℚ)] (1 / 2) false [true] = [2] ∧
      random_pruning [(2 : ℚ)] (1 / 2) true [true] ≠ [4] := by
  with_unfolding_all decide

/-- C2: `sce` is claimed to return one tensor of the input shape `S` for
every density in `[0,1]`, including the boundary `0`.  At density `0`,
`sce_mask` returns `torch.zeros_like` of the STACKED tensor (shape
`[N] ++ S`), so broadcasting leaves an extra axis and `sce` on two shape-`[2]`
tasks returns a zero tensor of shape `[2, 2]` instead of shape `[2]`:
the code evaluated at the failing input. -/
theorem sce_density_zero_stacked_shape :
    (Shaped.sce [exA, exB] 0 "total").map (fun r => (r.shape, r.toList)) =
      some ([2, 2], [0, 0, 0, 0]) := by
  with_unfolding_all decide

/-- C3 counterexample: `reshape_weight_task_tensors` is claimed to reject
with an invalid-argument error every call whose weight rank exceeds the
task-tensor rank.  On a rank-1 task tensor and a rank-2 weight tensor the
call succeeds (returns a tensor, raising nothing), so the claim as stated is
false. -/
theorem reshape_weight_rank_exceeding_accepted :
    exTaskT.dim < exWeights2D.dim ∧
      (Shaped.reshape_weight_task_tensors exTaskT exWeights2D).isSome = true := by
  with_unfolding_all decide

/-- C3 amended: when the weight tensor's rank is at least the task tensor's
rank, `reshape_weight_task_tensors` appends no singleton dimensions
(Python's `(1,) * n` is empty for `n <= 0`) and returns the weights viewed at
their own shape — shape and values unchanged, no error raised. -/
theorem reshape_weight_rank_exceeding_passthrough (T W : Shaped.Tensor)
    (h : T.dim ≤ W.dim) :
    (Shaped.reshape_weight_task_tensors T W).map Shaped.Tensor.shape = some W.shape ∧
    ∀ idx ∈ Shaped.indicesList W.shape,
      ((Shaped.reshape_weight_task_tensors T W).getD ⟨[], fun _ => 0⟩).fn idx =
        W.fn idx := by
  have hz : T.dim - W.dim = 0 := Nat.sub_eq_zero_of_le h
  have hshape : W.shape ++ List.replicate (T.dim - W.dim) 1 = W.shape := by
    rw [hz]
    simp
  unfold Shaped.reshape_weight_task_tensors
  rw [hshape]
  unfold Shaped.Tensor.view
  simp only [Shaped.Tensor.numel, eq_self_iff_true, if_true]
  refine ⟨rfl, fun idx hidx => ?_⟩
  simp only [Option.getD_some]
  show W.fn (Shaped.fromFlat W.shape (Shaped.toFlat W.shape idx)) = W.fn idx
  rw [fromFlat_toFlat W.shape idx hidx]

/-- Witness for C3's amended theorem at the concrete rank-exceeding input. -/
theorem reshape_weight_rank_exceeding_passthrough_witness :
    (Shaped.reshape_weight_task_tensors exTaskT exWeights2D).map Shaped.Tensor.shape =
      some exWeights2D.shape ∧
    ((Shaped.reshape_weight_task_tensors exTaskT exWeights2D).getD
        ⟨[], fun _ => 0⟩).fn [0, 1] = exWeights2D.fn [0, 1] :=
  ⟨(reshape_weight_rank_exceeding_passthrough exTaskT exWeights2D (by decide)).1,
   (reshape_weight_rank_exceeding_passthrough exTaskT exWeights2D (by decide)).2 [0, 1]
     (by with_unfolding_all decide)⟩

/-- C5: with method `total`, `calculate_majority_sign_mask` sums raw values
across the task axis, takes the majority sign to be `+1` iff the sum is
`≥ 0`, and marks a task's position true iff that task's sign equals the
majority sign; in particular on `[[1,-1],[1,1],[-1,1]]` the mask is
`[[true,false],[true,true],[false,true]]`. -/
theorem majority_sign_mask_total_spec :
    (∀ (N P : Nat) (t : Fin N → Fin P → ℚ),
        calculate_majority_sign_mask t "total" =
          some (fun i j => decide (rsign (t i j) =
            if (∑ k, t k j) ≥ 0 then 1 else -1))) ∧
    ∀ (i : Fin 3) (j : Fin 2),
      ((calculate_majority_sign_mask ex3 "total").getD (fun _ _ => false)) i j =
        exMask3 i j := by
  constructor
  · intro N P t
    rfl
  · with_unfolding_all decide

/-- C6: `disjoint_merge` with an all-true mask is the elementwise mean across
the `N` tasks, and at a position where the mask is false for every task the
output is exactly 0 (the participant count is clamped to 1, so no division by
zero occurs). -/
theorem disjoint_merge_mean_and_zero :
    (∀ (N P : Nat) (t : Fin N → Fin P → ℚ) (j : Fin P), 1 ≤ N →
        disjoint_merge t (fun _ _ => true) j = (∑ i, t i j) / (N : ℚ)) ∧
    ∀ (N P : Nat) (t : Fin N → Fin P → ℚ) (m : Fin N → Fin P → Bool) (j : Fin P),
      (∀ i, m i j = false) → disjoint_merge t m j = 0 := by
  constructor
  · intro N P t j hN
    have hnum : dm_numerator t (fun _ _ => true) j = ∑ i, t i j := by
      unfold dm_numerator
      simp [b2r]
    have hcount : @dm_count N P (fun _ _ => true) j = (N : ℚ) := by
      unfold dm_count
      simp [b2r]
    unfold disjoint_merge
    rw [hnum, hcount, max_eq_left (by exact_mod_cast hN)]
  · intro N P t m j hm
    unfold disjoint_merge dm_numerator dm_count
    simp [hm, b2r]

/-- Witness for C6 at a concrete one-task stack. -/
theorem disjoint_merge_mean_and_zero_witness :
    @disjoint_merge 1 1 (fun _ _ => (5 : ℚ)) (fun _ _ => true) 0 =
      (∑ _i : Fin 1, (5 : ℚ)) / ((1 : Nat) : ℚ) ∧
    @disjoint_merge 1 1 (fun _ _ => (5 : ℚ)) (fun _ _ => false) 0 = 0 :=
  ⟨disjoint_merge_mean_and_zero.1 1 1 (fun _ _ => 5) 0 (le_refl 1),
   disjoint_merge_mean_and_zero.2 1 1 (fun _ _ => 5) (fun _ _ => false) 0
     (fun _ => rfl)⟩

/-- C7: `task_arithmetic` is linear in its inputs — scaling every task tensor
by a constant `c` scales the merged result by `c`, for fixed weights. -/
theorem task_arithmetic_linear {N P : Nat} (task_tensors : Fin N → Fin P → ℚ)
    (weights : Fin N → ℚ) (c : ℚ) (j : Fin P) :
    task_arithmetic (fun i j' => c * task_tensors i j') weights j =
      c * task_arithmetic task_tensors weights j := by
  unfold task_arithmetic
  rw [Finset.mul_sum]
  exact Finset.sum_congr rfl fun i _ => by ring

/-- C8: `sce_weight` returns the per-task mean-squared energies normalised by
their sum, which therefore sums to 1; except when the energy sum's absolute
value is below `1e-6`, in which case it returns the uniform vector `1/N`. -/
theorem sce_weight_normalisation {N P : Nat} (t : Fin N → Fin P → ℚ)
    (_hN : 1 ≤ N) (_hP : 1 ≤ P) :
    (¬ |∑ i, (∑ j, t i j ^ 2) / (P : ℚ)| < 1 / 1000000 →
      (∀ i, sce_weight t i =
        ((∑ j, t i j ^ 2) / (P : ℚ)) / (∑ i', (∑ j, t i' j ^ 2) / (P : ℚ))) ∧
      (∑ i, sce_weight t i) = 1) ∧
    (|∑ i, (∑ j, t i j ^ 2) / (P : ℚ)| < 1 / 1000000 →
      ∀ i, sce_weight t i = 1 / (N : ℚ)) := by
  constructor
  · intro hbig
    have hS : (∑ i, (∑ j, t i j ^ 2) / (P : ℚ)) ≠ 0 := by
      have habs : (1 : ℚ) / 1000000 ≤ |∑ i, (∑ j, t i j ^ 2) / (P : ℚ)| :=
        not_lt.mp hbig
      exact abs_pos.mp (lt_of_lt_of_le (by norm_num) habs)
    constructor
    · intro i
      simp only [sce_weight]
      rw [if_neg hbig]
    · simp only [sce_weight]
      rw [if_neg hbig, ← Finset.sum_div, div_self hS]
  · intro hsmall
    intro i
    simp only [sce_weight]
    rw [if_pos hsmall]

/-- Witness for C8 at the concrete stack `[[1],[1]]`. -/
theorem sce_weight_normalisation_witness :
    (∀ i, sce_weight exEnergy i =
      ((∑ j, exEnergy i j ^ 2) / ((1 : Nat) : ℚ)) /
        (∑ i', (∑ j, exEnergy i' j ^ 2) / ((1 : Nat) : ℚ))) ∧
    (∑ i, sce_weight exEnergy i) = 1 :=
  (sce_weight_normalisation exEnergy (by norm_num) (le_refl 1)).1
    (by with_unfolding_all decide)

/-- C9: the `prune` dispatcher, for every tensor and method string, warns and
returns the tensor unchanged when `density ≥ 1`, and fails with an
invalid-argument error when `density < 0`. -/
theorem prune_density_boundaries (tensor : List ℚ) (density : ℚ) (method : String)
    (rescale : Bool) (bern : List Bool) :
    (density ≥ 1 → prune tensor density method rescale bern =
      .ok (["The density is greater than or equal to 1, no pruning will be performed."],
        tensor)) ∧
    (density < 0 → prune tensor density method rescale bern =
      .error "Density should be >= 0") := by
  constructor
  · intro h
    unfold prune
    rw [if_pos h]
  · intro h
    unfold prune
    rw [if_neg (not_le.mpr (by linarith)), if_pos h]

/-- Witness for C9 at concrete out-of-range densities. -/
theorem prune_density_boundaries_witness :
    prune [(3 : ℚ)] 2 "magnitude" false [] =
      .ok (["The density is greater than or equal to 1, no pruning will be performed."],
        [(3 : ℚ)]) ∧
    prune [(3 : ℚ)] (-1) "magnitude" false [] = .error "Density should be >= 0" :=
  ⟨(prune_density_boundaries [(3 : ℚ)] 2 "magnitude" false []).1 (by norm_num),
   (prune_density_boundaries [(3 : ℚ)] (-1) "magnitude" false []).2 (by norm_num)⟩

/-- C10: with either consensus method, the mask is false at every position of
every task holding an exact zero (its sign 0 never equals the ±1 majority
sign), so such elements are excluded from `disjoint_merge`'s per-position
participant count and contribute nothing to its numerator. -/
theorem zero_sign_never_agrees {N P : Nat} (t : Fin N → Fin P → ℚ) (method : String)
    (m : Fin N → Fin P → Bool) (i : Fin N) (j : Fin P)
    (hmethod : method = "total" ∨ method = "frequency")
    (hsome : calculate_majority_sign_mask t method = some m)
    (h0 : t i j = 0) :
    m i j = false ∧
    dm_numerator t m j = ∑ i' ∈ Finset.univ.erase i, t i' j * b2r (m i' j) ∧
    dm_count m j = ∑ i' ∈ Finset.univ.erase i, b2r (m i' j) := by
  have hfalse : m i j = false := by
    rcases hmethod with rfl | rfl
    · have hF : calculate_majority_sign_mask t "total" =
          some (fun i j => decide (rsign (t i j) =
            if (∑ k, t k j) ≥ 0 then 1 else -1)) := rfl
      rw [hF] at hsome
      rw [← Option.some.inj hsome]
      show decide (rsign (t i j) = if (∑ k, t k j) ≥ 0 then 1 else -1) = false
      rw [h0]
      have h1 : rsign (0 : ℚ) = 0 := rfl
      rw [h1]
      split_ifs <;> exact decide_eq_false (by norm_num)
    · have hF : calculate_majority_sign_mask t "frequency" =
          some (fun i j => decide (rsign (t i j) =
            if (∑ k, rsign (t k j)) ≥ 0 then 1 else -1)) := rfl
      rw [hF] at hsome
      rw [← Option.some.inj hsome]
      show decide (rsign (t i j) = if (∑ k, rsign (t k j)) ≥ 0 then 1 else -1) = false
      rw [h0]
      have h1 : rsign (0 : ℚ) = 0 := rfl
      rw [h1]
      split_ifs <;> exact decide_eq_false (by norm_num)
  refine ⟨hfalse, ?_, ?_⟩
  · unfold dm_numerator
    exact (Finset.sum_erase _ (by rw [h0, zero_mul])).symm
  · unfold dm_count
    exact (Finset.sum_erase _ (by rw [hfalse]; rfl)).symm

/-- Witness for C10 at the concrete stack `[[0],[5]]` with method `total`. -/
theorem zero_sign_never_agrees_witness :
    exZeroMask 0 0 = false ∧
    dm_numerator exZeroTask exZeroMask 0 =
      ∑ i' ∈ Finset.univ.erase (0 : Fin 2), exZeroTask i' 0 * b2r (exZeroMask i' 0) ∧
    dm_count exZeroMask 0 = ∑ i' ∈ Finset.univ.erase (0 : Fin 2), b2r (exZeroMask i' 0) :=
  zero_sign_never_agrees exZeroTask "total" exZeroMask 0 0 (Or.inl rfl) rfl
    (by with_unfolding_all decide)

/-- C4 counterexample: `magnitude_based_pruning` is claimed to retain exactly
`floor(density * element_count)` NONZERO elements for every tensor.  On the
all-zero tensor `[0, 0]` with density `1/2` the output `[0, 0]` has 0 nonzero
elements while `floor(1/2 * 2) = 1`, so the claim as stated is false. -/
theorem magnitude_pruning_zero_tensor_counterexample :
    countNonzero (magnitude_based_pruning [0, 0] (1 / 2)) = 0 ∧
      (⌊(1 / 2 : ℚ) * (([0, 0] : List ℚ).length : ℚ)⌋).toNat = 1 := by
  with_unfolding_all decide

/-- C4 amended: for `density ∈ (0,1)`, `magnitude_based_pruning` keeps the
`k = floor(density * element_count)` positions of largest absolute value and
zeroes the rest; hence, provided every element of the tensor is nonzero, the
output has exactly `k` nonzero elements; and unconditionally every retained
(nonzero-output) element's absolute value is at least every zeroed element's
absolute value. -/
theorem magnitude_pruning_spec (tensor : List ℚ) (density : ℚ)
    (_h0 : 0 < density) (h1 : density < 1) :
    ((∀ x ∈ tensor, x ≠ 0) →
      countNonzero (magnitude_based_pruning tensor density) =
        (⌊density * (tensor.length : ℚ)⌋).toNat) ∧
    ∀ i j, i < tensor.length → j < tensor.length →
      (magnitude_based_pruning tensor density).getD i 0 ≠ 0 →
      (magnitude_based_pruning tensor density).getD j 0 = 0 →
      |tensor.getD j 0| ≤ |tensor.getD i 0| := by
  constructor
  · intro hnz
    have hkn : (⌊density * (tensor.length : ℚ)⌋).toNat ≤ tensor.length := by
      have hdn : density * (tensor.length : ℚ) ≤ (tensor.length : ℚ) := by
        calc density * (tensor.length : ℚ) ≤ 1 * (tensor.length : ℚ) :=
              mul_le_mul_of_nonneg_right h1.le (Nat.cast_nonneg _)
          _ = (tensor.length : ℚ) := one_mul _
      have hfl := Int.floor_le_floor hdn
      rw [Int.floor_natCast] at hfl
      exact Int.toNat_le.mpr hfl
    unfold countNonzero magnitude_based_pruning
    rw [List.countP_map, countP_range_eq_card]
    have hfc : (Finset.range tensor.length).filter
          (fun i => ((fun x => decide (x ≠ 0)) ∘ fun i =>
            tensor.getD i 0 * (if topkRank (tensor.map (fun x => |x|)) i <
              (⌊density * (tensor.length : ℚ)⌋).toNat then 1 else 0)) i = true) =
        (Finset.range tensor.length).filter
          (fun i => topkRank (tensor.map (fun x => |x|)) i <
            (⌊density * (tensor.length : ℚ)⌋).toNat) := by
      apply Finset.filter_congr
      intro i hi
      rw [Finset.mem_range] at hi
      simp only [Function.comp_apply, decide_eq_true_eq]
      constructor
      · intro hne
        by_contra hk
        rw [if_neg hk, mul_zero] at hne
        exact hne rfl
      · intro hk
        rw [if_pos hk, mul_one]
        apply hnz
        have hv : tensor.getD i 0 = tensor[i] := by
          rw [List.getD_eq_getElem?_getD, List.getElem?_eq_getElem hi]
          rfl
        rw [hv]
        exact List.getElem_mem hi
    rw [hfc]
    have hlen : tensor.length = (tensor.map (fun x => |x|)).length :=
      (List.length_map _ _).symm
    rw [hlen]
    exact topkRank_card_sel (by rw [← hlen]; exact hkn)
  · intro i j hi hj hine hjz
    rw [magnitude_based_pruning_getD hi] at hine
    rw [magnitude_based_pruning_getD hj] at hjz
    have hri : topkRank (tensor.map (fun x => |x|)) i <
        (⌊density * (tensor.length : ℚ)⌋).toNat := by
      by_contra hk
      rw [if_neg hk, mul_zero] at hine
      exact hine rfl
    rcases mul_eq_zero.mp hjz with hz | hz
    · rw [hz]
      simp
    · have hrj : ¬ topkRank (tensor.map (fun x => |x|)) j <
          (⌊density * (tensor.length : ℚ)⌋).toNat := by
        intro hk
        rw [if_pos hk] at hz
        norm_num at hz
      by_contra habs
      push_neg at habs
      have hpij : topkPrec (tensor.map (fun x => |x|)) j i :=
        Or.inl (by rw [getD_map_abs, getD_map_abs]; exact habs)
      have hlt : topkRank (tensor.map (fun x => |x|)) j <
          topkRank (tensor.map (fun x => |x|)) i :=
        topkRank_lt_rank hpij (by rw [List.length_map]; exact hj)
      omega

/-- Witness for C4's amended theorem on the all-nonzero tensor `[3, -1]`. -/
theorem magnitude_pruning_spec_witness :
    countNonzero (magnitude_based_pruning [3, -1] (1 / 2)) =
      (⌊(1 / 2 : ℚ) * (([3, -1] : List ℚ).length : ℚ)⌋).toNat ∧
    |([3, -1] : List ℚ).getD 1 0| ≤ |([3, -1] : List ℚ).getD 0 0| :=
  ⟨(magnitude_pruning_spec [3, -1] (1 / 2) (by norm_num) (by norm_num)).1
      (by with_unfolding_all decide),
   (magnitude_pruning_spec [3, -1] (1 / 2) (by norm_num) (by norm_num)).2 0 1
      (by norm_num) (by norm_num)
      (by with_unfolding_all decide) (by with_unfolding_all decide)⟩
